import Mathlib

/-!
Shallow embedding of the resource-management report core of this repository
(source of authority: `src/script.js`; `src/unnamed/part_000` is an earlier
snapshot whose relevant fragments are identical where cited).

Modelling conventions:
* JavaScript numbers that arise here are integers, NaN, or exact quotients
  `seconds / 3600`; they are modelled by `Int` / `ℚ`, with `Option ℚ`
  (`none` = NaN) where NaN can arise.  IEEE rounding is out of scope.
* A JavaScript `Map` is an association list with unique keys: `set` replaces
  the existing binding in place, otherwise appends; iteration order is
  insertion order (`jsMapSet` / `jsMapGet`).
* `String#localeCompare` is modelled by the code-point (lexicographic) order
  on strings; `Array#sort` (stable since ES2019) is modelled by the stable
  `List.insertionSort`.
* Raw API field values are `RawVal` (absent / string / integral number), so
  that JavaScript truthiness and `parseInt` behave as in the source.
-/

namespace RMgmt

/-- Raw field value as delivered by the remote API: absent (`undefined` or
`null`), a string, or an integral number. -/
inductive RawVal where
  | missing
  | str (s : String)
  | num (n : Int)
  deriving DecidableEq, Repr

/-- JavaScript truthiness of a raw value: `undefined`, `null`, the empty
string and `0` are falsy. -/
def RawVal.truthy : RawVal → Bool
  | .missing => false
  | .str s => s != ""
  | .num n => n != 0

/-- Longest leading run of decimal digits, accumulated into a number. -/
def leadNatAux (acc : Nat) : List Char → Nat
  | [] => acc
  | c :: cs => if c.isDigit then leadNatAux (acc * 10 + (c.toNat - 48)) cs else acc

/-- Leading decimal-digit run of a character list; `none` when there is no
leading digit. -/
def leadNat : List Char → Option Nat
  | [] => none
  | c :: cs => if c.isDigit then some (leadNatAux (c.toNat - 48) cs) else none

/-- Whitespace test used by the string helpers (ASCII whitespace). -/
def isWs (c : Char) : Bool := c == ' ' || c == '\t' || c == '\n' || c == '\r'

/-- Model of JavaScript `parseInt` on a string: skip leading whitespace, read
an optional sign and then the longest run of decimal digits; `none` models
`NaN` (no leading integer). -/
def jsParseIntStr (s : String) : Option Int :=
  match s.data.dropWhile isWs with
  | '-' :: rest => (leadNat rest).map (fun n => -(n : Int))
  | '+' :: rest => (leadNat rest).map (fun n => (n : Int))
  | cs => (leadNat cs).map (fun n => (n : Int))

/-- Model of `parseInt` applied to a raw field value (`parseInt(undefined)`
and `parseInt(null)` are `NaN`). -/
def RawVal.parseInt : RawVal → Option Int
  | .missing => none
  | .str s => jsParseIntStr s
  | .num n => some n

/-- Addition on NaN-able rationals (`none` = NaN, absorbing, as in IEEE). -/
def optAdd : Option ℚ → Option ℚ → Option ℚ
  | some a, some b => some (a + b)
  | _, _ => none

/-- Fold of `optAdd` over a list starting from `0` — the accumulation pattern
used by the aggregation code. -/
def optSum (l : List (Option ℚ)) : Option ℚ := l.foldl optAdd (some 0)

/-- Model of the JavaScript idiom `v || d` on an optional string (the empty
string is falsy). -/
def jsOrStr (v : Option String) (d : String) : String :=
  match v with
  | some s => if s == "" then d else s
  | none => d

/-- Model of `String#trim` (restricted to ASCII whitespace, which is all the
code produces). -/
def jsTrim (s : String) : String :=
  ⟨((s.data.dropWhile isWs).reverse.dropWhile isWs).reverse⟩

/-- Model of a JavaScript `Map.set`: replace the (unique) existing binding in
place, otherwise append.  Iteration order is list order. -/
def jsMapSet {κ β : Type} [DecidableEq κ] : List (κ × β) → κ → β → List (κ × β)
  | [], k, v => [(k, v)]
  | e :: m, k, v => if e.1 = k then (k, v) :: m else e :: jsMapSet m k v

/-- Model of a JavaScript `Map.get`. -/
def jsMapGet {κ β : Type} [DecidableEq κ] (m : List (κ × β)) (k : κ) : Option β :=
  (m.find? (fun e => decide (e.1 = k))).map (·.2)

/-- Task record with the fields selected by the queries in `script.js`.
`groupName` models `task.group && task.group.name`; effort fields are raw
API values; ids are numeric. -/
structure Task where
  id : Nat
  title : Option String := none
  groupId : Option Nat := none
  parentId : Option Nat := none
  responsibleId : Option Nat := none
  timeEstimate : RawVal := .missing
  timeSpentInLogs : RawVal := .missing
  groupName : Option String := none
  deriving DecidableEq, Repr

/-- User record (fields used by the aggregation code). -/
structure User where
  ID : Nat
  NAME : Option String := none
  LAST_NAME : Option String := none
  deriving DecidableEq, Repr

/-- Project record (fields used by the aggregation code). -/
structure Project where
  ID : Nat
  NAME : String := ""
  deriving DecidableEq, Repr

/-- Truthiness of a numeric id field (`0`, `null`, `undefined` are falsy). -/
def idTruthy : Option Nat → Bool
  | none => false
  | some n => n != 0

/-- Display name of a user, `script.js` line 641:
`` `${user.NAME || ''} ${user.LAST_NAME || ''}`.trim() ``. -/
def displayName (u : User) : String :=
  jsTrim (jsOrStr u.NAME "" ++ " " ++ jsOrStr u.LAST_NAME "")

/-- User lookup keyed by `parseInt(user.ID)` (`script.js` lines 624-627). -/
def mkUserMap (users : List User) : List (Nat × User) :=
  users.foldl (fun m u => jsMapSet m u.ID u) []

/-- Responsible-user display name with the `unassigned` fallback
(`script.js` lines 640-641). -/
def userNameOf (umap : List (Nat × User)) (uid : Nat) : String :=
  match jsMapGet umap uid with
  | some u => displayName u
  | none => "Не назначен"

/-! ### PlanVsFact: `processPlanFactData` (`script.js` lines 622-717) -/

/-- Derived hours in `processPlanFactData` (`script.js` lines 667-668 and
672-673): `v ? parseInt(v) : 0`, then `/ 3600`.  A falsy value yields `0`;
a truthy unparseable value yields NaN (`none`). -/
def pfHoursOf (v : RawVal) : Option ℚ :=
  if v.truthy then v.parseInt.map (fun n => (n : ℚ) / 3600) else some 0

/-- Per-task accumulator inside a user group. -/
structure PFTaskAgg where
  title : String
  actualHours : Option ℚ
  plannedHours : Option ℚ
  deriving DecidableEq, Repr

/-- Accumulator of one `(project id, user id)` group. -/
structure PFGroup where
  projectName : String
  userName : String
  tasks : List (Nat × PFTaskAgg)
  totalActual : Option ℚ
  totalPlanned : Option ℚ
  deriving DecidableEq, Repr

/-- Project name resolution of `processPlanFactData` (`script.js` lines
643-644): looked-up `NAME`, else a name synthesized from the id. -/
def pfProjectName (pmap : List (Nat × Project)) (pid : Nat) : String :=
  match jsMapGet pmap pid with
  | some p => p.NAME
  | none => "Проект " ++ toString pid

/-- Retention test of `processPlanFactData` (`script.js` line 634):
`if (!task.groupId || !task.responsibleId) return;`. -/
def pfKeep (t : Task) : Bool := idTruthy t.groupId && idTruthy t.responsibleId

/-- Group key of a kept task.  The source uses the string
`` `${projectId}-${userId}` ``, which is injective on numeric ids, so the
pair is a faithful model. -/
def pfKey (t : Task) : Nat × Nat := (t.groupId.getD 0, t.responsibleId.getD 0)

/-- Per-task accumulation inside a group (`script.js` lines 658-675): the
entry is created on first sight (its title fixed then), then this
occurrence's hours are added. -/
def pfBumpTask (m : List (Nat × PFTaskAgg)) (tid : Nat) (title : String)
    (ha hp : Option ℚ) : List (Nat × PFTaskAgg) :=
  match jsMapGet m tid with
  | none => jsMapSet m tid ⟨title, optAdd (some 0) ha, optAdd (some 0) hp⟩
  | some a => jsMapSet m tid ⟨a.title, optAdd a.actualHours ha, optAdd a.plannedHours hp⟩

/-- Processing of one input task (`script.js` lines 633-676). -/
def pfStep (umap : List (Nat × User)) (pmap : List (Nat × Project))
    (m : List ((Nat × Nat) × PFGroup)) (t : Task) : List ((Nat × Nat) × PFGroup) :=
  if pfKeep t then
    match jsMapGet m (pfKey t) with
    | none =>
      m ++ [(pfKey t,
        { projectName := pfProjectName pmap (pfKey t).1
          userName := userNameOf umap (pfKey t).2
          tasks := pfBumpTask [] t.id (jsOrStr t.title "Без названия")
            (pfHoursOf t.timeSpentInLogs) (pfHoursOf t.timeEstimate)
          totalActual := optAdd (some 0) (pfHoursOf t.timeSpentInLogs)
          totalPlanned := optAdd (some 0) (pfHoursOf t.timeEstimate) })]
    | some g =>
      jsMapSet m (pfKey t)
        { g with
          tasks := pfBumpTask g.tasks t.id (jsOrStr t.title "Без названия")
            (pfHoursOf t.timeSpentInLogs) (pfHoursOf t.timeEstimate)
          totalActual := optAdd g.totalActual (pfHoursOf t.timeSpentInLogs)
          totalPlanned := optAdd g.totalPlanned (pfHoursOf t.timeEstimate) }
  else m

/-- Grouping pass of `processPlanFactData` (`script.js` lines 630-676):
`userTaskMap` after the `tasks.forEach`. -/
def pfGroups (tasks : List Task) (users : List User)
    (pmap : List (Nat × Project)) : List ((Nat × Nat) × PFGroup) :=
  tasks.foldl (pfStep (mkUserMap users) pmap) []

/-- Output row of `processPlanFactData`. -/
structure PFRow where
  projectName : String
  userName : String
  taskTitle : String
  actualHours : Option ℚ
  plannedHours : Option ℚ
  isSummary : Bool
  deriving DecidableEq, Repr

/-- Detail row of a group (`script.js` lines 681-690). -/
def pfDetailRow (g : PFGroup) (a : PFTaskAgg) : PFRow :=
  { projectName := g.projectName, userName := g.userName, taskTitle := a.title
    actualHours := a.actualHours, plannedHours := a.plannedHours, isSummary := false }

/-- Summary row of a group (`script.js` lines 693-700). -/
def pfSummaryRow (g : PFGroup) : PFRow :=
  { projectName := g.projectName, userName := g.userName
    taskTitle := "Сумма по всем задачам"
    actualHours := g.totalActual, plannedHours := g.totalPlanned, isSummary := true }

/-- Rows emitted for one group: its detail rows, then its summary row
(`script.js` lines 679-701). -/
def pfEmitGroup (kg : (Nat × Nat) × PFGroup) : List PFRow :=
  kg.2.tasks.map (fun e => pfDetailRow kg.2 e.2) ++ [pfSummaryRow kg.2]

/-- Row order of the final sort (`script.js` lines 704-710): the set of pairs
on which the comparator returns `≤ 0`.  `localeCompare` is modelled by the
code-point order. -/
@[reducible] def pfRowLe (a b : PFRow) : Prop :=
  if a.projectName ≠ b.projectName then a.projectName < b.projectName
  else if a.userName ≠ b.userName then a.userName < b.userName
  else if a.isSummary = true ∧ b.isSummary = false then False
  else if a.isSummary = false ∧ b.isSummary = true then True
  else a.taskTitle ≤ b.taskTitle

instance : DecidableRel pfRowLe := fun _ _ => inferInstance

/-- Model of `processPlanFactData` (`script.js` lines 622-717): group the
kept tasks, emit detail rows and one summary row per group, then sort with
the stable comparator. -/
def processPlanFactData (tasks : List Task) (users : List User)
    (pmap : List (Nat × Project)) : List PFRow :=
  (((pfGroups tasks users pmap).map pfEmitGroup).flatten).insertionSort pfRowLe

/-- First-occurrence list of the group keys of the retained tasks. -/
def pfDistinctKeys (tasks : List Task) : List (Nat × Nat) :=
  (tasks.filter pfKeep).foldl
    (fun acc t => if pfKey t ∈ acc then acc else acc ++ [pfKey t]) []

/-! ### ProjectResourceTree: `processProjectResources` (`script.js` lines 718-814) -/

/-- Derived hours in `processProjectResources` (`script.js` lines 731-736):
`(v && !isNaN(parseInt(v))) ? parseInt(v) / 3600 : 0` — unlike the
PlanVsFact variant, an unparseable value is guarded to `0`. -/
def prHoursOf (v : RawVal) : ℚ :=
  if v.truthy then
    match v.parseInt with
    | some n => (n : ℚ) / 3600
    | none => 0
  else 0

/-- Augmented node of `taskMap` (`script.js` lines 738-744): the task fields
that the traversal reads, plus the derived hours.  The source also stores a
`children` array — modelled by `prChildren` below — and a `level` field that
is written during the hierarchy pass (`task.level = parent.level + 1`, line
758) but never read afterwards (`flattenHierarchy` uses its own `level`
argument throughout), so that field is omitted. -/
structure PRNode where
  id : Nat
  title : Option String
  groupId : Option Nat
  parentId : Option Nat
  responsibleId : Option Nat
  groupName : Option String
  actualHours : ℚ
  plannedHours : ℚ
  deriving DecidableEq, Repr

/-- Node built for one task (`script.js` lines 730-744). -/
def mkPRNode (t : Task) : PRNode :=
  { id := t.id, title := t.title, groupId := t.groupId, parentId := t.parentId
    responsibleId := t.responsibleId, groupName := t.groupName
    actualHours := prHoursOf t.timeSpentInLogs
    plannedHours := prHoursOf t.timeEstimate }

/-- Values of `taskMap` in insertion order (`script.js` lines 725-748); a
duplicate task id overwrites its entry in place. -/
def prValues (tasks : List Task) : List PRNode :=
  (tasks.foldl (fun m t => jsMapSet m t.id (mkPRNode t)) []).map (·.2)

/-- Root test (`script.js` line 752): no truthy parent id, or parent id
absent from the task map (dangling references are tolerated). -/
def prIsRoot (vals : List PRNode) (n : PRNode) : Bool :=
  !(idTruthy n.parentId && vals.any (fun v => n.parentId == some v.id))

/-- Children of the node with id `pid`, in `taskMap` iteration order
(`script.js` lines 750-761): each non-root value is appended to its parent's
`children` list as the values are walked in order. -/
def prChildren (vals : List PRNode) (pid : Nat) : List PRNode :=
  vals.filter (fun v => idTruthy v.parentId && v.parentId == some pid)

/-- Report row of `processProjectResources`.  Fields the source leaves
`undefined` on some rows are `Option`s defaulting to `none`. -/
structure PRRow where
  projectId : Option Nat := none
  projectName : String := ""
  taskId : Option Nat := none
  taskTitle : String := ""
  subtaskTitle : Option String := none
  userId : Option Nat := none
  userName : String := ""
  actualHours : ℚ := 0
  plannedHours : ℚ := 0
  level : Nat := 0
  isProjectTotal : Bool := false
  deriving DecidableEq, Repr

/-- String interpolation of a possibly-missing numeric id (JavaScript renders
a missing value as `undefined`). -/
def jsIdStr : Option Nat → String
  | some n => toString n
  | none => "undefined"

/-- Report row pushed for one node at `level` (`script.js` lines 768-782). -/
def prMkRow (umap : List (Nat × User)) (n : PRNode) (level : Nat) : PRRow :=
  { projectId := n.groupId
    projectName := jsOrStr n.groupName ("Проект " ++ jsIdStr n.groupId)
    taskId := some n.id
    taskTitle := jsOrStr n.title "Без названия"
    subtaskTitle := some (if 0 < level then "Уровень " ++ toString level else "")
    userId := n.responsibleId
    userName :=
      match n.responsibleId with
      | some uid => userNameOf umap uid
      | none => "Не назначен"
    actualHours := n.actualHours
    plannedHours := n.plannedHours
    level := level
    isProjectTotal := false }

/-- One layer of the recursive flattening (`script.js` lines 763-791), the
recursion into children supplied as `recurse`: emit the node while
`level ≤ detailLevel`, enter its children while `level < detailLevel`, then
continue with the remaining siblings. -/
def prFlattenGo (umap : List (Nat × User)) (vals : List PRNode) (dl : Nat)
    (recurse : List PRNode → Nat → List PRRow) : List PRNode → Nat → List PRRow
  | [], _ => []
  | n :: rest, level =>
    (if level ≤ dl then [prMkRow umap n level] else [])
      ++ (if 0 < (prChildren vals n.id).length ∧ level < dl then
            recurse (prChildren vals n.id) (level + 1)
          else [])
      ++ prFlattenGo umap vals dl recurse rest level

/-- Depth-bounded flattening (`script.js` lines 763-791).  The source recurses
directly; children are entered only while `level < detailLevel`, so the
structural `fuel = detailLevel + 1 - level` never reaches `0` when the top
call passes `detailLevel + 1` at level `0` (the `0` branch is unreachable). -/
def prFlattenAux (umap : List (Nat × User)) (vals : List PRNode) (dl : Nat) :
    Nat → List PRNode → Nat → List PRRow
  | 0 => fun _ _ => []
  | fuel + 1 => prFlattenGo umap vals dl (prFlattenAux umap vals dl fuel)

/-- Entry point of the flattening, `const taskList = flattenHierarchy(hierarchy, 0)`. -/
def flattenHierarchy (umap : List (Nat × User)) (vals : List PRNode) (dl : Nat)
    (ts : List PRNode) (level : Nat) : List PRRow :=
  prFlattenAux umap vals dl (dl + 1) ts level

/-- Project-total row (`script.js` lines 795-803); its hour fields are the
totals accumulated over every input task (lines 746-747), independently of
the traversal. -/
def prTotalRow (tasks : List Task) (project : Project) : PRRow :=
  { projectName := project.NAME
    taskTitle := "ИТОГО ПО ПРОЕКТУ"
    userName := ""
    actualHours := tasks.foldl (fun acc t => acc + prHoursOf t.timeSpentInLogs) 0
    plannedHours := tasks.foldl (fun acc t => acc + prHoursOf t.timeEstimate) 0
    level := 999
    isProjectTotal := true }

/-- Final comparator (`script.js` lines 805-809): it returns `≤ 0` unless `a`
is the total row and `b` is not, so the stable sort moves total rows to the
end and leaves everything else in traversal order. -/
@[reducible] def prRowLe (a b : PRRow) : Prop :=
  ¬(a.isProjectTotal = true ∧ b.isProjectTotal = false)

instance : DecidableRel prRowLe := fun _ _ => inferInstance

/-- Model of `processProjectResources` (`script.js` lines 718-814). -/
def processProjectResources (tasks : List Task) (users : List User)
    (project : Project) (detailLevel : Nat) : List PRRow :=
  let umap := mkUserMap users
  let vals := prValues tasks
  let roots := vals.filter (prIsRoot vals)
  let taskList := flattenHierarchy umap vals detailLevel roots 0 ++ [prTotalRow tasks project]
  taskList.insertionSort prRowLe

/-! ### Pagination: `getTasks` (`script.js` lines 104-145) -/

/-- Paging loop of `getTasks` (`script.js` lines 115-141).  `fetch start`
models the `tasks.task.list` response at offset `start` (`none` = a response
without a `tasks` field).  The source's `do … while (true)` stops at the
first short page, a malformed response, or once `start`, incremented by 50
after a full page, reaches the 1000-record ceiling; it therefore issues at
most 20 requests, so the structural `fuel` (20 at the top call) never runs
out. -/
def getTasksLoop (fetch : Nat → Option (List Task)) : Nat → Nat → List Task
  | 0, _ => []
  | fuel + 1, start =>
    match fetch start with
    | none => []
    | some page =>
      if page.length < 50 then page
      else if 1000 ≤ start + 50 then page
      else page ++ getTasksLoop fetch fuel (start + 50)

/-- Model of `getTasks` (`script.js` lines 104-145): the concatenation of the
fetched pages. -/
def getTasks (fetch : Nat → Option (List Task)) : List Task :=
  getTasksLoop fetch 20 0

/-- Offsets of the successive `tasks.task.list` calls the loop issues. -/
def getTasksCallsLoop (fetch : Nat → Option (List Task)) : Nat → Nat → List Nat
  | 0, _ => []
  | fuel + 1, start =>
    start ::
      (match fetch start with
       | none => []
       | some page =>
         if page.length < 50 then []
         else if 1000 ≤ start + 50 then []
         else getTasksCallsLoop fetch fuel (start + 50))

/-- Offsets requested by `getTasks`. -/
def getTasksCalls (fetch : Nat → Option (List Task)) : List Nat :=
  getTasksCallsLoop fetch 20 0

/-- Honest paginated server over a fixed record list held in the ordering the
query requests (`order: {ID: 'ASC'}`): the page at `start` is the next 50
records. -/
def pageServer (all : List Task) (start : Nat) : Option (List Task) :=
  some ((all.drop start).take 50)

/-! ### Access layer: `callMethod` (`script.js` lines 11-93) -/

/-- Cached payload with its insertion timestamp (`script.js` lines 74-77). -/
structure CacheEntry where
  data : String
  timestamp : Nat
  deriving DecidableEq, Repr

/-- Shared mutable state of the access layer (`script.js` lines 4-8): the
response cache and the rate-limit timestamp. -/
structure ApiState where
  cache : List (String × CacheEntry)
  lastCall : Nat
  deriving DecidableEq, Repr

/-- Network outcome of one request: HTTP-level failure (`!response.ok`),
service-reported error (`data.error`, optional `error_description`), or a
payload. -/
inductive NetResponse where
  | httpError (status : Nat)
  | apiError (error : String) (desc : Option String)
  | success (data : String)
  deriving DecidableEq, Repr

/-- One attempted round trip: the clock at entry (`Date.now()`, line 13), the
response, and the clock after the fetch (line 71). -/
structure Attempt where
  now : Nat
  resp : NetResponse
  endTime : Nat
  deriving DecidableEq, Repr

/-- Containment of one character sequence in another (`String#includes`). -/
def seqContains (needle : List Char) : List Char → Bool
  | [] => needle.isEmpty
  | c :: rest => needle.isPrefixOf (c :: rest) || seqContains needle rest

/-- Thrown message of a failing response (`script.js` lines 61 and 68). -/
def errMsgOf : NetResponse → Option String
  | .httpError s => some ("HTTP error! status: " ++ toString s)
  | .apiError e d => some (jsOrStr d e)
  | .success _ => none

/-- Test `error.message.includes('QUERY_LIMIT_EXCEEDED')` (`script.js` line 83). -/
def isQuotaMsg (m : String) : Bool :=
  seqContains "QUERY_LIMIT_EXCEEDED".data m.data

/-- Fresh-cache lookup (`script.js` lines 15-20): a hit needs an entry younger
than 300000 ms; stale entries are bypassed, not evicted. -/
def cacheLookup (st : ApiState) (key : String) (now : Nat) : Option String :=
  match jsMapGet st.cache key with
  | some e => if now - e.timestamp < 300000 then some e.data else none
  | none => none

/-- Model of `callMethod` (`script.js` lines 11-89) for one cache key (method
name plus serialized parameters), driven by the finite list of round trips
the environment will answer.  Result: the outcome, the final state, and the
waits performed (the rate-limit wait of lines 22-25 and the fixed 2000 ms
quota backoff of line 84).  An empty `attempts` list models a network that
never answers (where the source would hang forever); times are `Date.now()`
values in milliseconds. -/
def callMethod (key : String) :
    List Attempt → ApiState → Except String String × ApiState × List Nat
  | [], st => (.error "NO_RESPONSE", st, [])
  | a :: rest, st =>
    match cacheLookup st key a.now with
    | some d => (.ok d, st, [])
    | none =>
      let rateWait : List Nat :=
        if a.now - st.lastCall < 1000 then [1000 - (a.now - st.lastCall)] else []
      match a.resp with
      | .success d =>
        (.ok d,
         { cache := jsMapSet st.cache key ⟨d, a.now⟩, lastCall := a.endTime },
         rateWait)
      | .httpError s =>
        let m := "HTTP error! status: " ++ toString s
        if isQuotaMsg m then
          let r := callMethod key rest st
          (r.1, r.2.1, rateWait ++ 2000 :: r.2.2)
        else (.error m, st, rateWait)
      | .apiError e d =>
        let m := jsOrStr d e
        if isQuotaMsg m then
          let r := callMethod key rest st
          (r.1, r.2.1, rateWait ++ 2000 :: r.2.2)
        else (.error m, st, rateWait)

/-! ### DateRangeResolver: `getDateRange` (`script.js` lines 816-857) -/

/-- Calendar date: `year`, zero-based `month` (as `Date#getMonth`), one-based
`day` (as `Date#getDate`). -/
structure Date where
  year : Int
  month : Nat
  day : Nat
  deriving DecidableEq, Repr

/-- Gregorian leap-year test. -/
def isLeap (y : Int) : Bool := y % 4 == 0 && (y % 100 != 0 || y % 400 == 0)

/-- Length of the zero-based month `m` of year `y`. -/
def daysInMonth (y : Int) (m : Nat) : Nat :=
  match m with
  | 0 => 31
  | 1 => if isLeap y then 29 else 28
  | 2 => 31
  | 3 => 30
  | 4 => 31
  | 5 => 30
  | 6 => 31
  | 7 => 31
  | 8 => 30
  | 9 => 31
  | 10 => 30
  | _ => 31

/-- Previous month of a zero-based (year, month) pair. -/
def prevMonth (y : Int) (m : Nat) : Int × Nat :=
  if m = 0 then (y - 1, 11) else (y, m - 1)

/-- Next month of a zero-based (year, month) pair. -/
def nextMonth (y : Int) (m : Nat) : Int × Nat :=
  if m = 11 then (y + 1, 0) else (y, m + 1)

/-- Day-of-month normalization of the JavaScript `Date` constructor and
`setDate`: a non-positive day borrows from earlier months, an overflowing
day carries into later months.  Structural `fuel`; `jsDate` supplies enough
for any argument, so the `0` branch is unreachable. -/
def normDayAux : Nat → Int → Nat → Int → Date
  | 0, y, m, _ => ⟨y, m, 1⟩
  | fuel + 1, y, m, d =>
    if d ≤ 0 then
      normDayAux fuel (prevMonth y m).1 (prevMonth y m).2
        (d + daysInMonth (prevMonth y m).1 (prevMonth y m).2)
    else if (daysInMonth y m : Int) < d then
      normDayAux fuel (nextMonth y m).1 (nextMonth y m).2 (d - daysInMonth y m)
    else ⟨y, m, d.toNat⟩

/-- Model of `new Date(y, m, d)`: months normalize with floor semantics, then
the day offset normalizes. -/
def jsDate (y : Int) (m : Int) (d : Int) : Date :=
  normDayAux (d.natAbs + 2) (y + m.fdiv 12) (m % 12).toNat d

/-- Model of `getDateRange` (`script.js` lines 816-857) at the calendar-date
level.  `today` is the host's current local date; `formatDate`'s
`toISOString().split('T')[0]` renders exactly this calendar date on a UTC
host (the source performs no timezone normalization — a documented
limitation). -/
def getDateRange (today : Date) (period : String)
    (customFrom customTo : Option Date) : Date × Date :=
  match period with
  | "week" => (jsDate today.year today.month ((today.day : Int) - 7), today)
  | "month" =>
    (jsDate today.year today.month 1, jsDate today.year ((today.month : Int) + 1) 0)
  | "quarter" =>
    (jsDate today.year ((3 * (today.month / 3) : Nat) : Int) 1,
     jsDate today.year ((3 * (today.month / 3) + 3 : Nat) : Int) 0)
  | "year" => (jsDate today.year 0 1, jsDate today.year 11 31)
  | "custom" => (customFrom.getD today, customTo.getD today)
  | _ => (jsDate today.year today.month ((today.day : Int) - 30), today)

/-- Valid calendar date (what `new Date()` can report). -/
@[reducible] def ValidDate (d : Date) : Prop :=
  d.month ≤ 11 ∧ 1 ≤ d.day ∧ d.day ≤ daysInMonth d.year d.month

/-! ### Helper lemmas: project-resource flattening -/

theorem prFlattenGo_forall {umap : List (Nat × User)} {vals : List PRNode} {dl : Nat}
    {recurse : List PRNode → Nat → List PRRow} {P : PRRow → Prop}
    (hemit : ∀ n level, level ≤ dl → P (prMkRow umap n level))
    (hrec : ∀ ts level, ∀ r ∈ recurse ts level, P r) :
    ∀ ts level, ∀ r ∈ prFlattenGo umap vals dl recurse ts level, P r := by
  intro ts
  induction ts with
  | nil => intro level r hr; simp [prFlattenGo] at hr
  | cons n rest ih =>
    intro level r hr
    simp only [prFlattenGo, List.mem_append] at hr
    rcases hr with (h1 | h2) | h3
    · split at h1
      · next hle => rw [List.mem_singleton.mp h1]; exact hemit n level hle
      · simp at h1
    · split at h2
      · exact hrec _ _ r h2
      · simp at h2
    · exact ih level r h3

theorem prFlattenAux_forall {umap : List (Nat × User)} {vals : List PRNode} {dl : Nat}
    {P : PRRow → Prop}
    (hemit : ∀ n level, level ≤ dl → P (prMkRow umap n level)) :
    ∀ fuel ts level, ∀ r ∈ prFlattenAux umap vals dl fuel ts level, P r := by
  intro fuel
  induction fuel with
  | zero => intro ts level r hr; simp [prFlattenAux] at hr
  | succ fuel ih =>
    intro ts level r hr
    exact prFlattenGo_forall hemit (fun ts' l' => ih ts' l') ts level r hr

/-- Rows produced by the flattening are never the project-total row. -/
theorem flatten_no_total {umap : List (Nat × User)} {vals : List PRNode} {dl : Nat}
    {ts : List PRNode} {level : Nat} :
    ∀ r ∈ flattenHierarchy umap vals dl ts level, r.isProjectTotal = false :=
  @prFlattenAux_forall umap vals dl (fun r => r.isProjectTotal = false)
    (fun _ _ _ => rfl) (dl + 1) ts level

/-- Rows produced by the flattening respect the depth bound. -/
theorem flatten_level_le {umap : List (Nat × User)} {vals : List PRNode} {dl : Nat}
    {ts : List PRNode} {level : Nat} :
    ∀ r ∈ flattenHierarchy umap vals dl ts level, r.level ≤ dl :=
  @prFlattenAux_forall umap vals dl (fun r => r.level ≤ dl)
    (fun _ _ h => h) (dl + 1) ts level

/-- Any non-total row is below every row in the final comparator's order. -/
theorem prRowLe_of_not_total {a : PRRow} (h : a.isProjectTotal = false) (b : PRRow) :
    prRowLe a b := by
  simp [prRowLe, h]

/-- The emitted `taskList` is already ordered for the final comparator. -/
theorem taskList_pairwise {umap : List (Nat × User)} {vals : List PRNode} {dl : Nat}
    {ts : List PRNode} {level : Nat} (tasks : List Task) (project : Project) :
    List.Pairwise prRowLe
      (flattenHierarchy umap vals dl ts level ++ [prTotalRow tasks project]) := by
  rw [List.pairwise_append]
  refine ⟨?_, List.pairwise_singleton _ _, ?_⟩
  · exact List.pairwise_of_forall_mem_list
      (fun a ha _ _ => prRowLe_of_not_total (flatten_no_total a ha) _)
  · exact fun a ha b _ => prRowLe_of_not_total (flatten_no_total a ha) b

/-- The final stable sort leaves the emitted list unchanged: the output of
`processProjectResources` is the flattened forest followed by the total row. -/
theorem processProjectResources_eq (tasks : List Task) (users : List User)
    (project : Project) (dl : Nat) :
    processProjectResources tasks users project dl =
      flattenHierarchy (mkUserMap users) (prValues tasks) dl
          ((prValues tasks).filter (prIsRoot (prValues tasks))) 0
        ++ [prTotalRow tasks project] :=
  List.Sorted.insertionSort_eq (taskList_pairwise tasks project)

/-- The output has exactly one total row, and it is `prTotalRow`. -/
theorem total_filter_eq (tasks : List Task) (users : List User)
    (project : Project) (dl : Nat) :
    (processProjectResources tasks users project dl).filter
        (fun r => r.isProjectTotal) = [prTotalRow tasks project] := by
  rw [processProjectResources_eq, List.filter_append]
  have h1 : (flattenHierarchy (mkUserMap users) (prValues tasks) dl
      ((prValues tasks).filter (prIsRoot (prValues tasks))) 0).filter
      (fun r => r.isProjectTotal) = [] := by
    rw [List.filter_eq_nil_iff]
    intro a ha
    simp [flatten_no_total a ha]
  rw [h1]
  rfl

/-- Folded hour totals agree with the list sums. -/
theorem prTotalRow_sums (tasks : List Task) (project : Project) :
    (prTotalRow tasks project).actualHours
        = (tasks.map (fun t => prHoursOf t.timeSpentInLogs)).sum
      ∧ (prTotalRow tasks project).plannedHours
        = (tasks.map (fun t => prHoursOf t.timeEstimate)).sum := by
  constructor <;>
    simp [prTotalRow, List.sum_eq_foldl, List.foldl_map]

/-- C2.  The project-total row of `processProjectResources` carries the sums
of the derived hours over all input tasks, and it does not depend on
`detailLevel`: changing the detail level can change only the non-total
rows. -/
theorem C2_project_total_independent (tasks : List Task) (users : List User)
    (project : Project) (detailLevel : Nat) :
    (processProjectResources tasks users project detailLevel).filter
        (fun r => r.isProjectTotal) = [prTotalRow tasks project]
      ∧ (prTotalRow tasks project).actualHours
          = (tasks.map (fun t => prHoursOf t.timeSpentInLogs)).sum
      ∧ (prTotalRow tasks project).plannedHours
          = (tasks.map (fun t => prHoursOf t.timeEstimate)).sum
      ∧ ∀ d2 : Nat,
          (processProjectResources tasks users project detailLevel).filter
              (fun r => r.isProjectTotal)
            = (processProjectResources tasks users project d2).filter
                (fun r => r.isProjectTotal) := by
  refine ⟨total_filter_eq .., (prTotalRow_sums ..).1, (prTotalRow_sums ..).2, ?_⟩
  intro d2
  rw [total_filter_eq, total_filter_eq]

/-- C3.  Every non-total row emitted by `processProjectResources` has
`level ≤ detailLevel`: a node is emitted only while its traversal level is at
most `detailLevel`, and children are entered only while the current level is
strictly below it. -/
theorem C3_depth_bound (tasks : List Task) (users : List User) (project : Project)
    (detailLevel : Nat) (r : PRRow)
    (hr : r ∈ processProjectResources tasks users project detailLevel)
    (hnt : r.isProjectTotal = false) : r.level ≤ detailLevel := by
  rw [processProjectResources_eq] at hr
  rcases List.mem_append.mp hr with h | h
  · exact flatten_level_le r h
  · rw [List.mem_singleton.mp h] at hnt
    simp [prTotalRow] at hnt

set_option maxRecDepth 8000

/-- Concrete input for the C3 witness: a root with one child, detail level 0. -/
def c3Tasks : List Task :=
  [{ id := 1, title := some "root", groupId := some 7, responsibleId := some 5,
     timeSpentInLogs := .num 3600, timeEstimate := .num 7200 },
   { id := 2, title := some "child", parentId := some 1, groupId := some 7,
     timeSpentInLogs := .num 1800 }]

/-- Concrete row emitted for the root task at level 0. -/
def c3Row : PRRow :=
  prMkRow [] (mkPRNode (c3Tasks.get ⟨0, by decide⟩)) 0

/-- Witness for C3 at a concrete input. -/
theorem C3_depth_bound_witness :
    c3Row ∈ processProjectResources c3Tasks [] { ID := 7, NAME := "Proj" } 0
      ∧ c3Row.isProjectTotal = false ∧ c3Row.level ≤ 0 :=
  ⟨by with_unfolding_all decide, by decide,
   C3_depth_bound c3Tasks [] { ID := 7, NAME := "Proj" } 0 c3Row
     (by with_unfolding_all decide) (by decide)⟩

/-- C10.  The output of `processProjectResources` is never empty: its last
element is its unique `isProjectTotal` row, which carries the sentinel level
999, the fixed project-total label, and the resolved project's name; on an
empty task list the output is exactly that row with zero hours. -/
theorem C10_total_row_shape (tasks : List Task) (users : List User)
    (project : Project) (detailLevel : Nat) :
    processProjectResources tasks users project detailLevel ≠ []
      ∧ (processProjectResources tasks users project detailLevel).getLast?
          = some (prTotalRow tasks project)
      ∧ (processProjectResources tasks users project detailLevel).filter
          (fun r => r.isProjectTotal) = [prTotalRow tasks project]
      ∧ (prTotalRow tasks project).level = 999
      ∧ (prTotalRow tasks project).taskTitle = "ИТОГО ПО ПРОЕКТУ"
      ∧ (prTotalRow tasks project).projectName = project.NAME
      ∧ (∀ d2 : Nat, processProjectResources [] users project d2 = [prTotalRow [] project])
      ∧ (prTotalRow [] project).actualHours = 0
      ∧ (prTotalRow [] project).plannedHours = 0 := by
  refine ⟨?_, ?_, total_filter_eq .., rfl, rfl, rfl, ?_, rfl, rfl⟩
  · rw [processProjectResources_eq]
    simp
  · rw [processProjectResources_eq]
    simp
  · intro d2
    have h : prValues ([] : List Task) = [] := rfl
    simp [processProjectResources, h, flattenHierarchy, prFlattenAux, prFlattenGo]

/-! ### Helper lemmas: pagination -/

/-- Loop characterization over the honest server: at an offset that is `50 ·
fuel` short of the 1000-record ceiling, the loop returns the server records
from `start` up to the ceiling. -/
theorem getTasksLoop_pageServer (all : List Task) :
    ∀ fuel start, start + 50 * fuel = 1000 →
      getTasksLoop (pageServer all) fuel start = (all.drop start).take (1000 - start) := by
  intro fuel
  induction fuel with
  | zero =>
    intro start h
    have hs : start = 1000 := by omega
    simp [getTasksLoop, hs]
  | succ fuel ih =>
    intro start h
    have hlen : ((all.drop start).take 50).length = min 50 (all.length - start) := by
      simp
    simp only [getTasksLoop, pageServer]
    split
    · next hshort =>
      rw [hlen] at hshort
      have h1 : all.length - start < 50 := by omega
      have h2 : (all.drop start).length = all.length - start := by simp
      rw [List.take_of_length_le (by omega), List.take_of_length_le (by omega)]
    · split
      · next hceil =>
        have : 1000 - start = 50 := by omega
        rw [this]
      · next hrec =>
        rw [ih (start + 50) (by omega)]
        have h1 : 1000 - start = 50 + (1000 - (start + 50)) := by omega
        rw [h1, List.take_add, List.drop_drop]

/-- The full fetch returns the first 1000 server records. -/
theorem getTasks_pageServer (all : List Task) :
    getTasks (pageServer all) = all.take 1000 := by
  have h := getTasksLoop_pageServer all 20 0 (by norm_num)
  simpa [getTasks] using h

/-- Offsets requested by the loop over the honest server: an arithmetic
progression with step 50, cut at the first short page or at the ceiling. -/
theorem getTasksCallsLoop_pageServer (all : List Task) :
    ∀ fuel start, start + 50 * fuel = 1000 →
      getTasksCallsLoop (pageServer all) fuel start =
        (List.range (min ((all.length - start) / 50 + 1) fuel)).map
          (fun i => start + 50 * i) := by
  intro fuel
  induction fuel with
  | zero => intro start h; simp [getTasksCallsLoop]
  | succ fuel ih =>
    intro start h
    have hlen : ((all.drop start).take 50).length = min 50 (all.length - start) := by
      simp
    simp only [getTasksCallsLoop, pageServer]
    split
    · next hshort =>
      rw [hlen] at hshort
      have h1 : (all.length - start) / 50 = 0 := by omega
      have h2 : List.range 1 = [0] := rfl
      simp [h1, h2]
    · next hfull =>
      rw [hlen] at hfull
      have hL : 50 ≤ all.length - start := by omega
      have h1 : (all.length - start) / 50 + 1 = ((all.length - (start + 50)) / 50 + 1) + 1 := by
        omega
      split
      · next hceil =>
        have hf : fuel = 0 := by omega
        simp [hf, h1, List.range_succ_eq_map]
      · next hrec =>
        rw [ih (start + 50) (by omega), h1, Nat.succ_min_succ, List.range_succ_eq_map]
        simp only [List.map_cons, List.map_map]
        refine congrArg₂ _ (by omega) ?_
        refine List.map_congr_left (fun i _ => ?_)
        simp [Function.comp]
        omega

/-- Offsets requested by `getTasks` over the honest server. -/
theorem getTasksCalls_pageServer (all : List Task) :
    getTasksCalls (pageServer all) =
      (List.range (min (all.length / 50 + 1) 20)).map (fun i => 50 * i) := by
  have h := getTasksCallsLoop_pageServer all 20 0 (by norm_num)
  simpa [getTasksCalls] using h

/-- C7.  Against a server that pages a fixed list with strictly ascending ids
in pages of 50, `getTasks` returns exactly the first 1000 records (so it
stops at the first short page, or at the 1000-record ceiling, whichever
comes first), the concatenation keeps the ascending-id order and has no
duplicate ids, and the requested offsets are `0, 50, 100, …`. -/
theorem C7_pagination (all : List Task)
    (hsorted : (all.map Task.id).Pairwise (· < ·)) :
    getTasks (pageServer all) = all.take 1000
      ∧ ((getTasks (pageServer all)).map Task.id).Pairwise (· < ·)
      ∧ ((getTasks (pageServer all)).map Task.id).Nodup
      ∧ getTasksCalls (pageServer all)
          = (List.range (min (all.length / 50 + 1) 20)).map (fun i => 50 * i) := by
  have hget := getTasks_pageServer all
  have hpw : ((getTasks (pageServer all)).map Task.id).Pairwise (· < ·) := by
    rw [hget, List.map_take]
    exact hsorted.sublist (List.take_sublist _ _)
  exact ⟨hget, hpw, hpw.imp Nat.ne_of_lt, getTasksCalls_pageServer all⟩

/-- Concrete server content for the C7 witness. -/
def c7All : List Task := [{ id := 3 }, { id := 5 }, { id := 9 }]

/-- Witness for C7 at a concrete input. -/
theorem C7_pagination_witness :
    (c7All.map Task.id).Pairwise (· < ·)
      ∧ (getTasks (pageServer c7All) = c7All.take 1000
          ∧ ((getTasks (pageServer c7All)).map Task.id).Pairwise (· < ·)
          ∧ ((getTasks (pageServer c7All)).map Task.id).Nodup
          ∧ getTasksCalls (pageServer c7All)
              = (List.range (min (c7All.length / 50 + 1) 20)).map (fun i => 50 * i)) :=
  ⟨by decide, C7_pagination c7All (by decide)⟩

/-! ### Helper lemmas: access layer -/

/-- A call whose overall outcome is an error leaves the state untouched: it
stores nothing in the cache and does not advance the rate-limit timestamp. -/
theorem callMethod_error_state (key : String) :
    ∀ (attempts : List Attempt) (st : ApiState) (e : String) (st' : ApiState)
      (ds : List Nat),
      callMethod key attempts st = (.error e, st', ds) → st' = st := by
  intro attempts
  induction attempts with
  | nil =>
    intro st e st' ds h
    simp only [callMethod, Prod.ext_iff] at h
    exact h.2.1.symm
  | cons a rest ih =>
    intro st e st' ds h
    simp only [callMethod] at h
    split at h
    · simp [Prod.ext_iff] at h
    · split at h
      · simp [Prod.ext_iff] at h
      · split at h
        · simp only [Prod.ext_iff] at h
          have hst := ih st e _ _ (by rw [← h.1])
          exact h.2.1.symm.trans hst
        · simp only [Prod.ext_iff] at h
          exact h.2.1.symm
      · split at h
        · simp only [Prod.ext_iff] at h
          have hst := ih st e _ _ (by rw [← h.1])
          exact h.2.1.symm.trans hst
        · simp only [Prod.ext_iff] at h
          exact h.2.1.symm

/-- C8.  On a cache miss whose round trip fails: a quota-exceeded message
makes the layer record the fixed 2000 ms backoff and retry the same call
(that is, the outcome, the final state and the later waits are exactly those
of `callMethod` on the remaining round trips — one retry per occurrence with
no global ceiling); any other failure message propagates to the caller
unchanged; and any call that ends in an error leaves the cache and the
last-call timestamp unchanged. -/
theorem C8_quota_retry (key : String) (a : Attempt) (rest : List Attempt)
    (st : ApiState) (m : String)
    (hmiss : cacheLookup st key a.now = none)
    (hm : errMsgOf a.resp = some m) :
    (isQuotaMsg m = true →
        callMethod key (a :: rest) st =
          ((callMethod key rest st).1, (callMethod key rest st).2.1,
            (if a.now - st.lastCall < 1000 then [1000 - (a.now - st.lastCall)] else [])
              ++ 2000 :: (callMethod key rest st).2.2))
      ∧ (isQuotaMsg m = false →
          callMethod key (a :: rest) st =
            (.error m, st,
              if a.now - st.lastCall < 1000 then [1000 - (a.now - st.lastCall)] else []))
      ∧ (∀ attempts e st' ds, callMethod key attempts st = (.error e, st', ds) → st' = st) := by
  refine ⟨?_, ?_, fun attempts e st' ds h => callMethod_error_state key attempts st e st' ds h⟩
  all_goals
    intro hq
  all_goals
    cases hresp : a.resp with
    | success d => rw [hresp] at hm; simp [errMsgOf] at hm
    | httpError s =>
      rw [hresp] at hm
      simp only [errMsgOf, Option.some.injEq] at hm
      simp only [callMethod, hmiss, hresp, hm, hq]
      simp
    | apiError efield desc =>
      rw [hresp] at hm
      simp only [errMsgOf, Option.some.injEq] at hm
      simp only [callMethod, hmiss, hresp, hm, hq]
      simp

/-- Concrete state for the C8 witness. -/
def c8St : ApiState := ⟨[], 0⟩

/-- Concrete quota-failing attempt for the C8 witness. -/
def c8A : Attempt := ⟨50, .apiError "QUERY_LIMIT_EXCEEDED" none, 60⟩

/-- Concrete follow-up attempt for the C8 witness. -/
def c8Rest : List Attempt := [⟨2100, .success "ok", 2200⟩]

/-- Witness for C8 at a concrete input: the quota failure is retried against
the next round trip with a 2000 ms backoff recorded after the rate wait. -/
theorem C8_quota_retry_witness :
    (cacheLookup c8St "k" c8A.now = none
        ∧ errMsgOf c8A.resp = some "QUERY_LIMIT_EXCEEDED")
      ∧ (isQuotaMsg "QUERY_LIMIT_EXCEEDED" = true →
          callMethod "k" (c8A :: c8Rest) c8St =
            ((callMethod "k" c8Rest c8St).1, (callMethod "k" c8Rest c8St).2.1,
              (if c8A.now - c8St.lastCall < 1000 then
                  [1000 - (c8A.now - c8St.lastCall)] else [])
                ++ 2000 :: (callMethod "k" c8Rest c8St).2.2)) :=
  ⟨⟨by decide, by decide⟩,
   (C8_quota_retry "k" c8A c8Rest c8St "QUERY_LIMIT_EXCEEDED"
      (by decide) (by decide)).1⟩

/-! ### Helper lemmas: date ranges -/

theorem daysInMonth_ge (y : Int) (m : Nat) : 28 ≤ daysInMonth y m := by
  unfold daysInMonth
  split
  all_goals first
    | omega
    | (split <;> omega)

theorem normDayAux_stay (fuel : Nat) (hf : fuel ≠ 0) (y : Int) (m : Nat) (d : Int)
    (h1 : 0 < d) (h2 : d ≤ (daysInMonth y m : Int)) :
    normDayAux fuel y m d = ⟨y, m, d.toNat⟩ := by
  cases fuel with
  | zero => exact absurd rfl hf
  | succ k =>
    unfold normDayAux
    rw [if_neg (by omega), if_neg (by omega)]

theorem normDayAux_borrow (fuel : Nat) (hf : fuel ≠ 0) (y : Int) (m : Nat) (d : Int)
    (hd : d ≤ 0) :
    normDayAux fuel y m d =
      normDayAux (fuel - 1) (prevMonth y m).1 (prevMonth y m).2
        (d + daysInMonth (prevMonth y m).1 (prevMonth y m).2) := by
  cases fuel with
  | zero => exact absurd rfl hf
  | succ k =>
    have hk : k + 1 - 1 = k := rfl
    rw [hk]
    conv_lhs => unfold normDayAux
    rw [if_pos hd]

/-- `new Date(y, m, 1)` for a real month is that month's first day. -/
theorem jsDate_first (y : Int) (m : Nat) (hm : m ≤ 11) :
    jsDate y (m : Int) 1 = ⟨y, m, 1⟩ := by
  have hdim := daysInMonth_ge y m
  have hf : (m : Int).fdiv 12 = 0 := by
    rw [Int.fdiv_eq_ediv _ (by norm_num)]
    omega
  have he : (((m : Int)) % 12).toNat = m := by omega
  unfold jsDate
  rw [hf, he, add_zero]
  exact normDayAux_stay ((1 : Int).natAbs + 2) (by omega) y m 1 (by omega) (by omega)

/-- `new Date(y, m + 1, 0)` is the last day of real month `m` — the
JavaScript idiom the source uses for month and quarter upper bounds. -/
theorem jsDate_last (y : Int) (m : Nat) (hm : m ≤ 11) :
    jsDate y ((m : Int) + 1) 0 = ⟨y, m, daysInMonth y m⟩ := by
  have hdim := daysInMonth_ge y m
  rcases Nat.lt_or_ge m 11 with hlt | hge
  · have hf : ((m : Int) + 1).fdiv 12 = 0 := by
      rw [Int.fdiv_eq_ediv _ (by norm_num)]
      omega
    have he : (((m : Int) + 1) % 12).toNat = m + 1 := by omega
    unfold jsDate
    rw [hf, he, add_zero]
    rw [normDayAux_borrow ((0 : Int).natAbs + 2) (by omega) y (m + 1) 0 (by omega)]
    have hp : prevMonth y (m + 1) = (y, m) := by simp [prevMonth]
    rw [hp]
    simp only [zero_add]
    exact normDayAux_stay ((0 : Int).natAbs + 2 - 1) (by omega) y m _ (by omega) (by omega)
  · have hm11 : m = 11 := by omega
    subst hm11
    show jsDate y 12 0 = ⟨y, 11, 31⟩
    have hf : (12 : Int).fdiv 12 = 1 := by
      rw [Int.fdiv_eq_ediv _ (by norm_num)]
      omega
    have he : ((12 : Int) % 12).toNat = 0 := by omega
    unfold jsDate
    rw [hf, he]
    rw [normDayAux_borrow ((0 : Int).natAbs + 2) (by omega) (y + 1) 0 0 (by omega)]
    have hp : prevMonth (y + 1) 0 = (y, 11) := by simp [prevMonth]
    rw [hp]
    have hd31 : daysInMonth y 11 = 31 := rfl
    rw [hd31]
    simp only [zero_add]
    exact normDayAux_stay ((0 : Int).natAbs + 2 - 1) (by omega) y 11 31 (by omega) (by omega)

/-- C9.  For any valid current date, `getDateRange` maps `month` to the first
and last day of the current calendar month, and `quarter` to the first day
of month `3·⌊month/3⌋` and the last day of month `3·⌊month/3⌋ + 2` — a pair
that lies inside the current quarter (same year, same quarter index), never
crossing into an adjacent one. -/
theorem C9_calendar_bounds (today : Date) (h : ValidDate today) :
    getDateRange today "month" none none
        = (⟨today.year, today.month, 1⟩,
           ⟨today.year, today.month, daysInMonth today.year today.month⟩)
      ∧ getDateRange today "quarter" none none
          = (⟨today.year, 3 * (today.month / 3), 1⟩,
             ⟨today.year, 3 * (today.month / 3) + 2,
               daysInMonth today.year (3 * (today.month / 3) + 2)⟩)
      ∧ (3 * (today.month / 3)) / 3 = today.month / 3
      ∧ (3 * (today.month / 3) + 2) / 3 = today.month / 3 := by
  obtain ⟨hm, _, _⟩ := h
  refine ⟨?_, ?_, by omega, by omega⟩
  · have hdef : getDateRange today "month" none none
        = (jsDate today.year today.month 1,
           jsDate today.year ((today.month : Int) + 1) 0) := rfl
    rw [hdef, jsDate_first today.year today.month hm, jsDate_last today.year today.month hm]
  · have hdef : getDateRange today "quarter" none none
        = (jsDate today.year ((3 * (today.month / 3) : Nat) : Int) 1,
           jsDate today.year ((3 * (today.month / 3) + 3 : Nat) : Int) 0) := rfl
    have hcast : ((3 * (today.month / 3) + 3 : Nat) : Int)
        = ((3 * (today.month / 3) + 2 : Nat) : Int) + 1 := by push_cast; ring
    rw [hdef, hcast, jsDate_first today.year _ (by omega), jsDate_last today.year _ (by omega)]

/-- Concrete current date for the C9 witness: 15 January 2026, a 31-day month. -/
def c9Today : Date := ⟨2026, 0, 15⟩

/-- Witness for C9: on a 31-day month the upper bound is the 31st. -/
theorem C9_calendar_bounds_witness :
    ValidDate c9Today
      ∧ getDateRange c9Today "month" none none
          = (⟨c9Today.year, c9Today.month, 1⟩,
             ⟨c9Today.year, c9Today.month, daysInMonth c9Today.year c9Today.month⟩)
      ∧ (getDateRange c9Today "month" none none).2.day = 31 :=
  ⟨by decide, (C9_calendar_bounds c9Today (by decide)).1, by decide⟩

/-! ### Helper lemmas: PlanVsFact grouping -/

theorem optAdd_some_zero (x : Option ℚ) : optAdd (some 0) x = x := by
  cases x <;> simp [optAdd]

theorem optAdd_assoc (a b c : Option ℚ) :
    optAdd (optAdd a b) c = optAdd a (optAdd b c) := by
  cases a <;> cases b <;> cases c <;> simp [optAdd, add_assoc]

theorem optAdd_right_comm (a b c : Option ℚ) :
    optAdd (optAdd a b) c = optAdd (optAdd a c) b := by
  cases a <;> cases b <;> cases c <;> simp [optAdd, add_right_comm]

/-- Pulling one summand out of a left fold of `optAdd`. -/
theorem optFoldl_pull (f : Nat × PFTaskAgg → Option ℚ) :
    ∀ (l : List (Nat × PFTaskAgg)) (init x : Option ℚ),
      l.foldl (fun acc e => optAdd acc (f e)) (optAdd init x)
        = optAdd (l.foldl (fun acc e => optAdd acc (f e)) init) x := by
  intro l
  induction l with
  | nil => intro init x; rfl
  | cons e rest ih =>
    intro init x
    simp only [List.foldl_cons]
    rw [optAdd_right_comm, ih]

/-- One step of `userData.tasks` accumulation adds the task's hours to any
`optAdd` fold over the map, for either hour component. -/
theorem pfBump_fold (f : PFTaskAgg → Option ℚ) (h : Option ℚ) (tid : Nat)
    (title : String) (ha hp : Option ℚ)
    (hupd : ∀ a : PFTaskAgg,
      f ⟨a.title, optAdd a.actualHours ha, optAdd a.plannedHours hp⟩ = optAdd (f a) h)
    (hnew : f ⟨title, optAdd (some 0) ha, optAdd (some 0) hp⟩ = optAdd (some 0) h) :
    ∀ (m : List (Nat × PFTaskAgg)) (init : Option ℚ),
      (pfBumpTask m tid title ha hp).foldl (fun acc e => optAdd acc (f e.2)) init
        = optAdd (m.foldl (fun acc e => optAdd acc (f e.2)) init) h := by
  intro m
  induction m with
  | nil =>
    intro init
    simp only [pfBumpTask, jsMapGet, List.find?_nil, Option.map_none', jsMapSet,
      List.foldl_cons, List.foldl_nil, hnew]
    rw [optAdd_some_zero]
  | cons e rest ih =>
    intro init
    by_cases he : e.1 = tid
    · have hbump : pfBumpTask (e :: rest) tid title ha hp
          = (tid, ⟨e.2.title, optAdd e.2.actualHours ha, optAdd e.2.plannedHours hp⟩)
              :: rest := by
        simp [pfBumpTask, jsMapGet, jsMapSet, he]
      rw [hbump]
      simp only [List.foldl_cons, hupd]
      rw [← optAdd_assoc, optFoldl_pull]
    · have hbump : pfBumpTask (e :: rest) tid title ha hp
          = e :: pfBumpTask rest tid title ha hp := by
        have hd : (decide (e.1 = tid)) = false := by simp [he]
        cases hg : (rest.find? (fun x => decide (x.1 = tid))).map (fun x => x.2) with
        | none =>
          simp only [pfBumpTask, jsMapGet, List.find?_cons, hd, hg, jsMapSet]
          rw [if_neg he]
        | some a =>
          simp only [pfBumpTask, jsMapGet, List.find?_cons, hd, hg, jsMapSet]
          rw [if_neg he]
      rw [hbump]
      simp only [List.foldl_cons]
      rw [ih]

/-- Fold of one hour component over a group's task map. -/
def aggBy (f : PFTaskAgg → Option ℚ) (m : List (Nat × PFTaskAgg)) : Option ℚ :=
  m.foldl (fun acc e => optAdd acc (f e.2)) (some 0)

/-- Invariant of a group accumulator: its running totals equal the folds of
its per-task entries. -/
def PFGroupOK (g : PFGroup) : Prop :=
  g.totalActual = aggBy (fun a => a.actualHours) g.tasks
    ∧ g.totalPlanned = aggBy (fun a => a.plannedHours) g.tasks

theorem pfBump_aggActual (m : List (Nat × PFTaskAgg)) (tid : Nat) (title : String)
    (ha hp : Option ℚ) :
    aggBy (fun a => a.actualHours) (pfBumpTask m tid title ha hp)
      = optAdd (aggBy (fun a => a.actualHours) m) ha :=
  pfBump_fold (fun a => a.actualHours) ha tid title ha hp (fun _ => rfl) rfl m (some 0)

theorem pfBump_aggPlanned (m : List (Nat × PFTaskAgg)) (tid : Nat) (title : String)
    (ha hp : Option ℚ) :
    aggBy (fun a => a.plannedHours) (pfBumpTask m tid title ha hp)
      = optAdd (aggBy (fun a => a.plannedHours) m) hp :=
  pfBump_fold (fun a => a.plannedHours) hp tid title ha hp (fun _ => rfl) rfl m (some 0)

/-- Membership in a map after `set`: the new binding or an old one. -/
theorem jsMapSet_mem {κ β : Type} [DecidableEq κ] :
    ∀ (m : List (κ × β)) (k : κ) (v : β) (kg : κ × β),
      kg ∈ jsMapSet m k v → kg = (k, v) ∨ kg ∈ m := by
  intro m
  induction m with
  | nil => intro k v kg h; simp [jsMapSet] at h; simp [h]
  | cons e rest ih =>
    intro k v kg h
    simp only [jsMapSet] at h
    split at h
    · rcases List.mem_cons.mp h with h1 | h1
      · exact Or.inl h1
      · exact Or.inr (List.mem_cons_of_mem e h1)
    · rcases List.mem_cons.mp h with h1 | h1
      · exact Or.inr (h1 ▸ List.mem_cons_self e rest)
      · rcases ih k v kg h1 with h2 | h2
        · exact Or.inl h2
        · exact Or.inr (List.mem_cons_of_mem e h2)

/-- A successful map lookup locates the binding itself. -/
theorem jsMapGet_some_mem {κ β : Type} [DecidableEq κ] :
    ∀ (m : List (κ × β)) (k : κ) (v : β), jsMapGet m k = some v → (k, v) ∈ m := by
  intro m
  induction m with
  | nil => intro k v h; simp [jsMapGet] at h
  | cons e rest ih =>
    intro k v h
    simp only [jsMapGet, List.find?_cons] at h
    split at h
    · next hd =>
      simp only [Option.map_some', Option.some.injEq] at h
      have hk : e.1 = k := of_decide_eq_true hd
      have hev : (k, v) = e := by rw [← hk, ← h]
      rw [hev]
      exact List.mem_cons_self e rest
    · exact List.mem_cons_of_mem e (ih k v h)

/-- The group-totals invariant is preserved by one processing step. -/
theorem pfStep_ok (umap : List (Nat × User)) (pmap : List (Nat × Project))
    (m : List ((Nat × Nat) × PFGroup)) (t : Task)
    (hm : ∀ kg ∈ m, PFGroupOK kg.2) :
    ∀ kg ∈ pfStep umap pmap m t, PFGroupOK kg.2 := by
  intro kg hkg
  unfold pfStep at hkg
  split at hkg
  · split at hkg
    · rcases List.mem_append.mp hkg with h1 | h1
      · exact hm kg h1
      · have h2 : kg = ((pfKey t),
            ({ projectName := pfProjectName pmap (pfKey t).1
               userName := userNameOf umap (pfKey t).2
               tasks := pfBumpTask [] t.id (jsOrStr t.title "Без названия")
                 (pfHoursOf t.timeSpentInLogs) (pfHoursOf t.timeEstimate)
               totalActual := optAdd (some 0) (pfHoursOf t.timeSpentInLogs)
               totalPlanned := optAdd (some 0) (pfHoursOf t.timeEstimate) } : PFGroup)) :=
          List.mem_singleton.mp h1
        subst h2
        constructor
        · show optAdd (some 0) (pfHoursOf t.timeSpentInLogs) = _
          rw [pfBump_aggActual]
          rfl
        · show optAdd (some 0) (pfHoursOf t.timeEstimate) = _
          rw [pfBump_aggPlanned]
          rfl
    · next g hget =>
      rcases jsMapSet_mem m (pfKey t) _ kg hkg with h1 | h1
      · have hg : PFGroupOK g := hm _ (jsMapGet_some_mem m (pfKey t) g hget)
        subst h1
        constructor
        · show optAdd g.totalActual (pfHoursOf t.timeSpentInLogs) = _
          rw [pfBump_aggActual, hg.1]
        · show optAdd g.totalPlanned (pfHoursOf t.timeEstimate) = _
          rw [pfBump_aggPlanned, hg.2]
      · exact hm kg h1
  · exact hm kg hkg

/-- Every group built by the grouping pass satisfies the totals invariant:
its running totals are exactly the folds of its detail entries. -/
theorem pfGroups_ok (tasks : List Task) (users : List User)
    (pmap : List (Nat × Project)) :
    ∀ kg ∈ pfGroups tasks users pmap, PFGroupOK kg.2 := by
  suffices h : ∀ (ts : List Task) (m : List ((Nat × Nat) × PFGroup)),
      (∀ kg ∈ m, PFGroupOK kg.2) →
      ∀ kg ∈ ts.foldl (pfStep (mkUserMap users) pmap) m, PFGroupOK kg.2 by
    exact h tasks [] (by simp)
  intro ts
  induction ts with
  | nil => intro m hm; simpa using hm
  | cons t rest ih =>
    intro m hm
    simp only [List.foldl_cons]
    exact ih _ (pfStep_ok (mkUserMap users) pmap m t hm)

/-- A failed lookup means the key is absent. -/
theorem jsMapGet_none_iff {κ β : Type} [DecidableEq κ] (m : List (κ × β)) (k : κ) :
    jsMapGet m k = none ↔ k ∉ m.map (fun e => e.1) := by
  rw [jsMapGet, Option.map_eq_none', List.find?_eq_none]
  simp only [decide_eq_true_eq, List.mem_map, not_exists, not_and]

/-- Re-`set`ting an existing key leaves the key list unchanged. -/
theorem jsMapSet_keys {κ β : Type} [DecidableEq κ] :
    ∀ (m : List (κ × β)) (k : κ) (v : β), k ∈ m.map (fun e => e.1) →
      (jsMapSet m k v).map (fun e => e.1) = m.map (fun e => e.1) := by
  intro m
  induction m with
  | nil => intro k v h; simp at h
  | cons e rest ih =>
    intro k v h
    simp only [jsMapSet]
    by_cases he : e.1 = k
    · rw [if_pos he]
      simp [he]
    · rw [if_neg he]
      simp only [List.map_cons]
      simp only [List.map_cons, List.mem_cons] at h
      rcases h with h | h
      · exact absurd h.symm he
      · rw [ih k v h]

/-- Keys of the grouping fold: the distinct keys of the retained tasks, in
first-occurrence order. -/
theorem pfGroups_keys_general (users : List User) (pmap : List (Nat × Project)) :
    ∀ (ts : List Task) (m : List ((Nat × Nat) × PFGroup)),
      (ts.foldl (pfStep (mkUserMap users) pmap) m).map (fun e => e.1)
        = (ts.filter pfKeep).foldl
            (fun acc t => if pfKey t ∈ acc then acc else acc ++ [pfKey t])
            (m.map (fun e => e.1)) := by
  intro ts
  induction ts with
  | nil => intro m; simp
  | cons t rest ih =>
    intro m
    simp only [List.foldl_cons, List.filter_cons]
    by_cases hk : pfKeep t
    · simp only [hk, if_true, List.foldl_cons]
      rw [ih]
      congr 1
      unfold pfStep
      rw [if_pos hk]
      cases hget : jsMapGet m (pfKey t) with
      | none =>
        have hnin : pfKey t ∉ m.map (fun e => e.1) := (jsMapGet_none_iff m _).mp hget
        simp [hnin]
      | some g =>
        have hin : pfKey t ∈ m.map (fun e => e.1) := by
          by_contra hnin
          rw [(jsMapGet_none_iff m _).mpr hnin] at hget
          exact Option.noConfusion hget
        rw [jsMapSet_keys m _ _ hin]
        simp [hin]
    · have hk' : pfKeep t = false := by simpa using hk
      simp only [hk', Bool.false_eq_true, if_false]
      unfold pfStep
      rw [if_neg (by simp [hk'])]
      exact ih m

/-- Keys of the grouping pass are exactly the distinct retained keys. -/
theorem pfGroups_keys (tasks : List Task) (users : List User)
    (pmap : List (Nat × Project)) :
    (pfGroups tasks users pmap).map (fun e => e.1) = pfDistinctKeys tasks := by
  have h := pfGroups_keys_general users pmap tasks []
  simpa [pfGroups, pfDistinctKeys] using h

/-- Each group emits exactly one summary row. -/
theorem pfEmitGroup_count (kg : (Nat × Nat) × PFGroup) :
    (pfEmitGroup kg).countP (fun r => r.isSummary) = 1 := by
  unfold pfEmitGroup
  rw [List.countP_append]
  have h1 : (kg.2.tasks.map (fun e => pfDetailRow kg.2 e.2)).countP
      (fun r => r.isSummary) = 0 := by
    rw [List.countP_eq_zero]
    intro r hr
    simp only [List.mem_map] at hr
    obtain ⟨e, _, rfl⟩ := hr
    simp [pfDetailRow]
  rw [h1]
  rfl

/-- The emitted rows contain one summary row per group. -/
theorem pfEmit_count (gs : List ((Nat × Nat) × PFGroup)) :
    ((gs.map pfEmitGroup).flatten).countP (fun r => r.isSummary) = gs.length := by
  induction gs with
  | nil => rfl
  | cons g rest ih =>
    simp only [List.map_cons, List.flatten_cons, List.countP_append, ih,
      pfEmitGroup_count, List.length_cons]
    omega

/-- The output has exactly one summary row per distinct retained group key. -/
theorem processPlanFactData_count (tasks : List Task) (users : List User)
    (pmap : List (Nat × Project)) :
    (processPlanFactData tasks users pmap).countP (fun r => r.isSummary)
      = (pfDistinctKeys tasks).length := by
  unfold processPlanFactData
  rw [List.Perm.countP_eq _ (List.perm_insertionSort _ _), pfEmit_count,
    ← pfGroups_keys tasks users pmap, List.length_map]

/-- C1.  `processPlanFactData` builds, for each non-empty `(project id, user
id)` group, that group's detail rows followed by exactly one summary row
whose `actualHours` and `plannedHours` are the `optAdd` sums of the detail
rows' hours; the output is the stable sort of this emission and contains
exactly one summary row per distinct retained group key; re-running the
aggregation on the same input yields the same rows. -/
theorem C1_summary_totals (tasks : List Task) (users : List User)
    (pmap : List (Nat × Project)) :
    processPlanFactData tasks users pmap
        = (((pfGroups tasks users pmap).map pfEmitGroup).flatten).insertionSort pfRowLe
      ∧ (processPlanFactData tasks users pmap).countP (fun r => r.isSummary)
          = (pfDistinctKeys tasks).length
      ∧ (∀ kg ∈ pfGroups tasks users pmap,
          pfEmitGroup kg
              = kg.2.tasks.map (fun e => pfDetailRow kg.2 e.2) ++ [pfSummaryRow kg.2]
            ∧ (pfSummaryRow kg.2).actualHours
                = optSum ((kg.2.tasks.map (fun e => pfDetailRow kg.2 e.2)).map
                    (fun r => r.actualHours))
            ∧ (pfSummaryRow kg.2).plannedHours
                = optSum ((kg.2.tasks.map (fun e => pfDetailRow kg.2 e.2)).map
                    (fun r => r.plannedHours))
            ∧ (pfEmitGroup kg).countP (fun r => r.isSummary) = 1)
      ∧ processPlanFactData tasks users pmap = processPlanFactData tasks users pmap := by
  refine ⟨rfl, processPlanFactData_count tasks users pmap, ?_, rfl⟩
  intro kg hkg
  have hok := pfGroups_ok tasks users pmap kg hkg
  refine ⟨rfl, ?_, ?_, pfEmitGroup_count kg⟩
  · show kg.2.totalActual = _
    rw [hok.1]
    simp [aggBy, optSum, List.map_map, List.foldl_map, Function.comp, pfDetailRow]
  · show kg.2.totalPlanned = _
    rw [hok.2]
    simp [aggBy, optSum, List.map_map, List.foldl_map, Function.comp, pfDetailRow]

/-- Concrete input for the C1 witness — the worked example of the spec. -/
def c1Tasks : List Task :=
  [{ id := 1, title := some "A", groupId := some 10, responsibleId := some 5,
     timeEstimate := .num 3600, timeSpentInLogs := .num 7200 }]

/-- Concrete user list for the C1 witness. -/
def c1Users : List User := [{ ID := 5, NAME := some "Ann", LAST_NAME := some "K" }]

/-- Concrete project lookup for the C1 witness. -/
def c1Pmap : List (Nat × Project) := [(10, { ID := 10, NAME := "Proj" })]

/-- The single group the C1 witness input produces. -/
def c1kg : (Nat × Nat) × PFGroup :=
  ((10, 5),
   { projectName := "Proj", userName := "Ann K",
     tasks := [(1, ⟨"A", some 2, some 1⟩)],
     totalActual := some 2, totalPlanned := some 1 })

/-- Witness for C1 at the spec's worked example. -/
theorem C1_summary_totals_witness :
    c1kg ∈ pfGroups c1Tasks c1Users c1Pmap
      ∧ (pfEmitGroup c1kg
            = c1kg.2.tasks.map (fun e => pfDetailRow c1kg.2 e.2) ++ [pfSummaryRow c1kg.2]
          ∧ (pfSummaryRow c1kg.2).actualHours
              = optSum ((c1kg.2.tasks.map (fun e => pfDetailRow c1kg.2 e.2)).map
                  (fun r => r.actualHours))
          ∧ (pfSummaryRow c1kg.2).plannedHours
              = optSum ((c1kg.2.tasks.map (fun e => pfDetailRow c1kg.2 e.2)).map
                  (fun r => r.plannedHours))
          ∧ (pfEmitGroup c1kg).countP (fun r => r.isSummary) = 1) :=
  ⟨by with_unfolding_all decide,
   (C1_summary_totals c1Tasks c1Users c1Pmap).2.2.1 c1kg (by with_unfolding_all decide)⟩

/-- Dropped tasks do not influence the grouping. -/
theorem pfGroups_filter (tasks : List Task) (users : List User)
    (pmap : List (Nat × Project)) :
    pfGroups tasks users pmap = pfGroups (tasks.filter pfKeep) users pmap := by
  suffices h : ∀ (ts : List Task) (m : List ((Nat × Nat) × PFGroup)),
      ts.foldl (pfStep (mkUserMap users) pmap) m
        = (ts.filter pfKeep).foldl (pfStep (mkUserMap users) pmap) m by
    exact h tasks []
  intro ts
  induction ts with
  | nil => intro m; rfl
  | cons t rest ih =>
    intro m
    by_cases hk : pfKeep t
    · simp only [List.foldl_cons, List.filter_cons, hk, if_true]
      exact ih _
    · have hk' : pfKeep t = false := by simpa using hk
      have hstep : pfStep (mkUserMap users) pmap m t = m := by
        unfold pfStep
        rw [if_neg (by simp [hk'])]
      simp only [List.foldl_cons, List.filter_cons, hk', Bool.false_eq_true, if_false,
        hstep]
      exact ih m

/-- The distinct-key fold never shrinks its accumulator. -/
theorem distinct_len_mono :
    ∀ (ts : List Task) (acc : List (Nat × Nat)),
      acc.length ≤ (ts.foldl
        (fun acc t => if pfKey t ∈ acc then acc else acc ++ [pfKey t]) acc).length := by
  intro ts
  induction ts with
  | nil => intro acc; simp
  | cons t rest ih =>
    intro acc
    simp only [List.foldl_cons]
    refine le_trans ?_ (ih _)
    by_cases h : pfKey t ∈ acc
    · simp [h]
    · simp [h]

/-- C4 (amended).  `processPlanFactData` excludes a task iff it lacks a
truthy project id OR lacks a truthy responsible id (not only when it lacks
both): filtering those tasks away does not change the output, the retention
test is exactly the conjunction of the two truthiness tests, and any input
containing a task with both ids produces a non-empty report. -/
theorem C4_exclusion_rule (tasks : List Task) (users : List User)
    (pmap : List (Nat × Project)) :
    processPlanFactData tasks users pmap
        = processPlanFactData (tasks.filter pfKeep) users pmap
      ∧ (∀ t : Task, pfKeep t = false
          ↔ (idTruthy t.groupId = false ∨ idTruthy t.responsibleId = false))
      ∧ (tasks.any pfKeep = true → processPlanFactData tasks users pmap ≠ []) := by
  refine ⟨?_, ?_, ?_⟩
  · unfold processPlanFactData
    rw [pfGroups_filter]
  · intro t
    unfold pfKeep
    cases idTruthy t.groupId <;> cases idTruthy t.responsibleId <;> simp
  · intro hany hnil
    have hc := processPlanFactData_count tasks users pmap
    rw [hnil] at hc
    simp only [List.countP_nil] at hc
    rw [List.any_eq_true] at hany
    obtain ⟨t, ht, htk⟩ := hany
    have hne : tasks.filter pfKeep ≠ [] := by
      intro h0
      have hmem := List.mem_filter.mpr ⟨ht, htk⟩
      rw [h0] at hmem
      exact absurd hmem (List.not_mem_nil t)
    obtain ⟨t0, ts0, hts⟩ := List.exists_cons_of_ne_nil hne
    unfold pfDistinctKeys at hc
    rw [hts] at hc
    simp only [List.foldl_cons, List.not_mem_nil, if_false, List.nil_append] at hc
    have hmono := distinct_len_mono ts0 [pfKey t0]
    rw [← hc] at hmono
    simp at hmono

/-- Counterexample to C4 as stated: a task with a project id but no
responsible id is excluded (empty report), not included. -/
def c4Task : Task := { id := 1, groupId := some 10 }

/-- The claim says `c4Task` (project id present, responsible id absent) is
included via the `unassigned` fallback; the code excludes it: the report is
empty. -/
theorem C4_counterexample :
    idTruthy c4Task.groupId = true
      ∧ c4Task.responsibleId = none
      ∧ processPlanFactData [c4Task] [] [] = [] :=
  ⟨rfl, rfl, by decide⟩

/-- Concrete input for the C4 witness. -/
def c4TasksW : List Task := [{ id := 1, groupId := some 10, responsibleId := some 5 }]

/-- Witness for C4 at a concrete input. -/
theorem C4_exclusion_rule_witness :
    c4TasksW.any pfKeep = true ∧ processPlanFactData c4TasksW [] [] ≠ [] :=
  ⟨by decide, (C4_exclusion_rule c4TasksW [] []).2.2 (by decide)⟩

/-- C5 (amended).  Hour derivation: in `processProjectResources` any value
that fails integer parsing (and any falsy value) yields `0`; in
`processPlanFactData` a falsy value (missing, empty, zero) yields `0`, but a
truthy value is parsed and divided by 3600 with `NaN` (`none`) propagating
when parsing fails; a successfully parsed value always yields
`seconds / 3600`.  No case raises an error. -/
theorem C5_lenient_parsing (v : RawVal) (n : Int) :
    (RawVal.truthy v = false → pfHoursOf v = some 0)
      ∧ (RawVal.truthy v = true →
          pfHoursOf v = (RawVal.parseInt v).map (fun k => (k : ℚ) / 3600))
      ∧ (RawVal.parseInt v = none → prHoursOf v = 0)
      ∧ (RawVal.parseInt v = some n → prHoursOf v = (n : ℚ) / 3600) := by
  refine ⟨?_, ?_, ?_, ?_⟩
  · intro h
    simp [pfHoursOf, h]
  · intro h
    simp [pfHoursOf, h]
  · intro h
    simp [prHoursOf, h]
  · intro h
    by_cases ht : v.truthy
    · simp [prHoursOf, ht, h]
    · have h0 : n = 0 := by
        cases v with
        | missing => simp [RawVal.parseInt] at h
        | str s =>
          have hs : s = "" := by simpa [RawVal.truthy] using ht
          subst hs
          have : jsParseIntStr "" = none := rfl
          rw [RawVal.parseInt, this] at h
          exact Option.noConfusion h
        | num k =>
          have hk : k = 0 := by simpa [RawVal.truthy] using ht
          rw [RawVal.parseInt, Option.some.injEq] at h
          omega
      subst h0
      simp [prHoursOf, ht]

/-- Concrete task for the C5 counterexample: a truthy, unparseable
`timeSpentInLogs`. -/
def c5Task : Task :=
  { id := 1, groupId := some 10, responsibleId := some 5, timeSpentInLogs := .str "abc" }

/-- Detail row the C5 counterexample produces: `actualHours` is NaN. -/
def c5Detail : PFRow :=
  { projectName := "Проект 10", userName := "Не назначен", taskTitle := "Без названия",
    actualHours := none, plannedHours := some 0, isSummary := false }

/-- Summary row the C5 counterexample produces. -/
def c5Summary : PFRow :=
  { projectName := "Проект 10", userName := "Не назначен",
    taskTitle := "Сумма по всем задачам",
    actualHours := none, plannedHours := some 0, isSummary := true }

/-- Counterexample to C5 as stated: in `processPlanFactData` a truthy value
that fails integer parsing (`"abc"`) yields NaN (`none`), not `0`, and the
NaN propagates to the report rows. -/
theorem C5_counterexample :
    RawVal.truthy (.str "abc") = true
      ∧ RawVal.parseInt (.str "abc") = none
      ∧ processPlanFactData [c5Task] [] [] = [c5Detail, c5Summary]
      ∧ c5Detail.actualHours = none
      ∧ c5Detail.actualHours ≠ some 0 :=
  ⟨by decide, by decide, by with_unfolding_all decide, rfl, by decide⟩

/-- Witness for C5 at concrete inputs: the empty string yields `0` in both
algorithms, and a parsed value yields `seconds / 3600`. -/
theorem C5_lenient_parsing_witness :
    (RawVal.truthy (.str "") = false ∧ pfHoursOf (.str "") = some 0)
      ∧ (RawVal.parseInt (.str "") = none ∧ prHoursOf (.str "") = 0)
      ∧ (RawVal.parseInt (.num 7200) = some 7200
          ∧ prHoursOf (.num 7200) = (7200 : ℚ) / 3600) :=
  ⟨⟨by decide, (C5_lenient_parsing (.str "") 0).1 (by decide)⟩,
   ⟨by decide, (C5_lenient_parsing (.str "") 0).2.2.1 (by decide)⟩,
   ⟨by decide, (C5_lenient_parsing (.num 7200) 7200).2.2.2 (by decide)⟩⟩

/-! ### Helper instances: the PlanVsFact comparator is a total preorder -/

instance : IsTotal PFRow pfRowLe := by
  constructor
  intro a b
  simp only [pfRowLe]
  by_cases h1 : a.projectName = b.projectName
  · rw [h1]
    by_cases h2 : a.userName = b.userName
    · rw [h2]
      simp only [ne_eq, not_true_eq_false, if_false]
      cases ha : a.isSummary <;> cases hb : b.isSummary <;> simp
      · exact le_total _ _
      · exact le_total _ _
    · have h2' : ¬(b.userName = a.userName) := fun h => h2 h.symm
      simp only [ne_eq, not_true_eq_false, if_false, h2, h2', not_false_eq_true, if_true]
      exact lt_or_gt_of_ne h2
  · have h1' : ¬(b.projectName = a.projectName) := fun h => h1 h.symm
    simp only [ne_eq, h1, h1', not_false_eq_true, if_true]
    exact lt_or_gt_of_ne h1

instance : IsTrans PFRow pfRowLe := by
  constructor
  intro a b c hab hbc
  simp only [pfRowLe] at hab hbc ⊢
  by_cases h1 : a.projectName = b.projectName
  · by_cases h2 : b.projectName = c.projectName
    · have h3 : a.projectName = c.projectName := h1.trans h2
      simp only [h1, ne_eq, not_true_eq_false, if_false] at hab
      simp only [h2, ne_eq, not_true_eq_false, if_false] at hbc
      simp only [h3, ne_eq, not_true_eq_false, if_false]
      by_cases h4 : a.userName = b.userName
      · by_cases h5 : b.userName = c.userName
        · have h6 : a.userName = c.userName := h4.trans h5
          simp only [h4, not_true_eq_false, if_false] at hab
          simp only [h5, not_true_eq_false, if_false] at hbc
          simp only [h6, not_true_eq_false, if_false]
          cases ha : a.isSummary <;> cases hb : b.isSummary <;> cases hc : c.isSummary <;>
              simp_all <;>
            exact le_trans hab hbc
        · have h6 : ¬(a.userName = c.userName) := by rw [h4]; exact h5
          simp only [h5, ne_eq, not_false_eq_true, if_true] at hbc
          simp only [h6, ne_eq, not_false_eq_true, if_true]
          rw [h4]
          exact hbc
      · by_cases h5 : b.userName = c.userName
        · have h6 : ¬(a.userName = c.userName) := by rw [← h5]; exact h4
          simp only [h4, ne_eq, not_false_eq_true, if_true] at hab
          simp only [h6, ne_eq, not_false_eq_true, if_true]
          rw [← h5]
          exact hab
        · simp only [h4, ne_eq, not_false_eq_true, if_true] at hab
          simp only [h5, ne_eq, not_false_eq_true, if_true] at hbc
          have h6 : a.userName < c.userName := lt_trans hab hbc
          simp only [ne_of_lt h6, ne_eq, not_false_eq_true, if_true]
          exact h6
    · have h3 : ¬(a.projectName = c.projectName) := by rw [h1]; exact h2
      simp only [h2, ne_eq, not_false_eq_true, if_true] at hbc
      simp only [h3, ne_eq, not_false_eq_true, if_true]
      rw [h1]
      exact hbc
  · by_cases h2 : b.projectName = c.projectName
    · have h3 : ¬(a.projectName = c.projectName) := by rw [← h2]; exact h1
      simp only [h1, ne_eq, not_false_eq_true, if_true] at hab
      simp only [h3, ne_eq, not_false_eq_true, if_true]
      rw [← h2]
      exact hab
    · simp only [h1, ne_eq, not_false_eq_true, if_true] at hab
      simp only [h2, ne_eq, not_false_eq_true, if_true] at hbc
      have h3 : a.projectName < c.projectName := lt_trans hab hbc
      simp only [ne_of_lt h3, ne_eq, not_false_eq_true, if_true]
      exact h3

/-- C6 (amended).  The output of `processPlanFactData` is sorted by the
comparator of the source (project name ascending, then user name ascending,
then summary rows after detail rows, then task title ascending) and is a
permutation of the per-group emission; hence inside every maximal block of
equal `(projectName, userName)` all detail rows precede all summary rows.
When distinct groups carry distinct name pairs this puts each group's
summary row immediately after its last detail row, but name collisions can
interleave groups (see the counterexample). -/
theorem C6_sort_order (tasks : List Task) (users : List User)
    (pmap : List (Nat × Project)) :
    List.Pairwise pfRowLe (processPlanFactData tasks users pmap)
      ∧ (processPlanFactData tasks users pmap).Perm
          (((pfGroups tasks users pmap).map pfEmitGroup).flatten) :=
  ⟨List.sorted_insertionSort pfRowLe _, List.perm_insertionSort pfRowLe _⟩

/-- Tasks of the C6 counterexample: two groups — `(1, 5)` and `(2, 5)` —
whose projects share the display name `P`. -/
def c6Tasks : List Task :=
  [{ id := 1, title := some "A", groupId := some 1, responsibleId := some 5,
     timeEstimate := .num 3600, timeSpentInLogs := .num 3600 },
   { id := 2, title := some "B", groupId := some 2, responsibleId := some 5,
     timeEstimate := .num 7200, timeSpentInLogs := .num 7200 }]

/-- Users of the C6 counterexample. -/
def c6Users : List User := [{ ID := 5, NAME := some "Ann", LAST_NAME := some "K" }]

/-- Project lookup of the C6 counterexample: distinct ids, same name. -/
def c6Pmap : List (Nat × Project) :=
  [(1, { ID := 1, NAME := "P" }), (2, { ID := 2, NAME := "P" })]

/-- Detail row of group `(1, 5)`. -/
def c6dA : PFRow :=
  { projectName := "P", userName := "Ann K", taskTitle := "A",
    actualHours := some 1, plannedHours := some 1, isSummary := false }

/-- Detail row of group `(2, 5)`. -/
def c6dB : PFRow :=
  { projectName := "P", userName := "Ann K", taskTitle := "B",
    actualHours := some 2, plannedHours := some 2, isSummary := false }

/-- Summary row of group `(1, 5)`. -/
def c6s1 : PFRow :=
  { projectName := "P", userName := "Ann K", taskTitle := "Сумма по всем задачам",
    actualHours := some 1, plannedHours := some 1, isSummary := true }

/-- Summary row of group `(2, 5)`. -/
def c6s2 : PFRow :=
  { projectName := "P", userName := "Ann K", taskTitle := "Сумма по всем задачам",
    actualHours := some 2, plannedHours := some 2, isSummary := true }

/-- Counterexample to C6 as stated: group `(1, 5)`'s only detail row is
`c6dA` (1 h) yet its summary row `c6s1` (1 h) sits at index 2, immediately
preceded by `c6dB` — a detail row of the other group — so a group's summary
row does not in general immediately follow that group's last detail row. -/
theorem C6_counterexample :
    processPlanFactData c6Tasks c6Users c6Pmap = [c6dA, c6dB, c6s1, c6s2]
      ∧ c6s1.isSummary = true ∧ c6s1.actualHours = some 1
      ∧ c6dB.isSummary = false ∧ c6dB.taskTitle = "B" ∧ c6dB.actualHours = some 2
      ∧ c6dA.taskTitle = "A" ∧ c6dA.actualHours = some 1 :=
  ⟨by with_unfolding_all decide, rfl, rfl, rfl, rfl, rfl, rfl, rfl⟩

end RMgmt
